import Mathlib

/-!
Verification of `ansible/inventory/terraform_inventory.py`, a dynamic-inventory
adapter: it runs `terraform output -json`, parses the JSON document on stdout,
and prints an Ansible inventory document produced from the `vm_connection`
output value.

Modelling choices:
* JSON documents are the inductive type `JValue`.  JSON numbers are modelled as
  integers; floating-point JSON numbers are outside the model (the script never
  computes with numbers).
* Python exceptions are modelled with `Except PyErr`; an `Except.error` result
  of the whole script corresponds to an uncaught Python exception (a crash).
* The behaviour of the external `terraform` process is the parameter
  `ToolBehavior`: either the binary cannot be launched (`subprocess.run` raises
  `FileNotFoundError`), or the process runs and exits with a given status and
  stdout text.
* `json.loads` / `json.dumps(·, indent=2)` are modelled by the executable
  `parseJson` / `dumpsJson` defined below on the integer-number fragment of
  JSON; `dumpsJson` escapes `"`, `\` and control characters but does not
  re-encode other non-ASCII characters (Python additionally `\u`-escapes them,
  which does not change the parsed value).
* Host names stored as dict keys are modelled for string-valued `vm_name`
  fields; a non-string (but hashable) `vm_name` is outside the model and
  reported as `PyErr.nonStringHostKey`.
-/

/-- JSON values as read from the provisioning tool's stdout and as built by the
script.  Numbers are integers (see the module comment). -/
inductive JValue where
  | null : JValue
  | bool (b : Bool) : JValue
  | num (n : Int) : JValue
  | str (s : String) : JValue
  | arr (xs : List JValue) : JValue
  | obj (fs : List (String × JValue)) : JValue

/-- Python exceptions that the modelled code can raise. -/
inductive PyErr where
  /-- `FileNotFoundError` from `subprocess.run` when the `terraform` binary is
  absent from the executable search path (or the working directory is missing).
  It is not a `subprocess.CalledProcessError`, so the script does not catch it. -/
  | fileNotFound : PyErr
  /-- `KeyError` from a `d[k]` subscript on a dict without the key. -/
  | keyError : PyErr
  /-- `TypeError` from subscripting or `in`-testing a value of the wrong type. -/
  | typeError : PyErr
  /-- `AttributeError` from calling `.get` on a non-dict value. -/
  | attributeError : PyErr
  /-- Out of model: Python would accept any hashable `vm_name` as a dict key;
  the model covers string host names (terraform's `vm_name` output is a
  string). -/
  | nonStringHostKey : PyErr
deriving DecidableEq

/-- Outcome of invoking the external provisioning tool once. -/
inductive ToolBehavior where
  /-- The `terraform` binary could not be launched: `subprocess.run` raises
  `FileNotFoundError`. -/
  | missing : ToolBehavior
  /-- The process ran to completion with the given exit status and stdout. -/
  | exits (code : Nat) (stdout : List Char) : ToolBehavior

/-- Lookup in a Python dict (association list with distinct keys, as produced
by `json.loads`). -/
def alookup : List (String × JValue) → String → Option JValue
  | [], _ => none
  | (k, v) :: r, key => if k = key then some v else alookup r key

/-- Python truthiness of a JSON value (`if not tf_outputs:` / `if public_ip:`). -/
def pyTruthy : JValue → Bool
  | .null => false
  | .bool b => b
  | .num n => decide (n ≠ 0)
  | .str s => decide (s ≠ "")
  | .arr xs => !xs.isEmpty
  | .obj fs => !fs.isEmpty

/-- Does the character list `n` start the character list at hand? -/
def startsList : List Char → List Char → Bool
  | [], _ => true
  | _ :: _, [] => false
  | a :: as, b :: bs => a == b && startsList as bs

/-- Contiguous-substring test, as Python's `in` on strings. -/
def strIncludes : List Char → List Char → Bool
  | n, [] => n.isEmpty
  | n, c :: r => startsList n (c :: r) || strIncludes n r

/-- Python's `k in v` for a string key `k`: key membership for dicts, element
equality for lists, substring for strings, `TypeError` otherwise. -/
def pyContains (k : String) : JValue → Except PyErr Bool
  | .obj fs => .ok (alookup fs k).isSome
  | .arr xs => .ok (xs.any fun v => match v with | .str s => k == s | _ => false)
  | .str s => .ok (strIncludes k.toList s.toList)
  | _ => .error .typeError

/-- Python's `v[k]` for a string key: dict lookup (`KeyError` when absent),
`TypeError` on any non-dict value. -/
def pySubscript (v : JValue) (k : String) : Except PyErr JValue :=
  match v with
  | .obj fs =>
    match alookup fs k with
    | some w => .ok w
    | none => .error .keyError
  | _ => .error .typeError

/-- Python's `d.get(k, default)`: defaulted dict lookup, `AttributeError` on a
non-dict receiver. -/
def pyGet (d : JValue) (k : String) (dflt : JValue) : Except PyErr JValue :=
  match d with
  | .obj fs => .ok ((alookup fs k).getD dflt)
  | _ => .error .attributeError

/-- The empty inventory document `{"_meta": {"hostvars": {}}}` returned on
lines 32–33 of the script. -/
def emptyDoc : JValue :=
  .obj [("_meta", .obj [("hostvars", .obj [])])]

/-- The hardcoded `webservers` group variables (script lines 38–42). -/
def connVars : JValue :=
  .obj [("ansible_user", .str "azureuser"),
        ("ansible_ssh_private_key_file", .str "~/.ssh/terraform-demo/id_rsa"),
        ("ansible_ssh_common_args", .str "-o StrictHostKeyChecking=no")]

/-- The inventory skeleton of script lines 35–47, with the `webservers` hosts
list and the `_meta.hostvars` map filled in. -/
def inventoryDoc (hosts : List JValue) (hv : List (String × JValue)) : JValue :=
  .obj [("webservers", .obj [("hosts", .arr hosts), ("vars", connVars)]),
        ("_meta", .obj [("hostvars", .obj hv)])]

/-- The per-host variable record of script lines 58–62. -/
def hostEntry (pub priv : JValue) (nm : String) : JValue :=
  .obj [("ansible_host", pub), ("private_ip", priv), ("vm_name", .str nm)]

/-- Script lines 32–64: the part of `generate_inventory` that runs after the
terraform outputs have been obtained. -/
def generate_inventory_from (tf : JValue) : Except PyErr JValue :=
  if pyTruthy tf then
    match pyContains "vm_connection" tf with
    | .error e => .error e
    | .ok false => .ok (inventoryDoc [] [])
    | .ok true =>
      match pySubscript tf "vm_connection" with
      | .error e => .error e
      | .ok wrapper =>
        match pySubscript wrapper "value" with
        | .error e => .error e
        | .ok vm_conn =>
          match pyGet vm_conn "vm_name" (.str "unknown") with
          | .error e => .error e
          | .ok vm_name =>
            match pyGet vm_conn "public_ip" (.str "") with
            | .error e => .error e
            | .ok public_ip =>
              match pyGet vm_conn "private_ip" (.str "") with
              | .error e => .error e
              | .ok private_ip =>
                if pyTruthy public_ip then
                  match vm_name with
                  | .str nm =>
                    .ok (inventoryDoc [.str nm]
                          [(nm, hostEntry public_ip private_ip nm)])
                  | _ => .error .nonStringHostKey
                else .ok (inventoryDoc [] [])
  else .ok emptyDoc

/-- Lookup of a key in a JSON object document. -/
def docLookup (v : JValue) (k : String) : Option JValue :=
  match v with
  | .obj fs => alookup fs k
  | _ => none

/-- The `webservers.hosts` entry of an inventory document, when present. -/
def webHosts (v : JValue) : Option JValue :=
  (docLookup v "webservers").bind fun g => docLookup g "hosts"

/-- The `webservers.vars` entry of an inventory document, when present. -/
def webVars (v : JValue) : Option JValue :=
  (docLookup v "webservers").bind fun g => docLookup g "vars"

/-- The `_meta.hostvars` entry of an inventory document, when present. -/
def metaHostvars (v : JValue) : Option JValue :=
  (docLookup v "_meta").bind fun m => docLookup m "hostvars"

/-- The host list of the `webservers` group, taken as empty when the group (or
its `hosts` list) is absent. -/
def hostsList (v : JValue) : List JValue :=
  match webHosts v with
  | some (.arr xs) => xs
  | _ => []

/-- The key list of `_meta.hostvars`, taken as empty when absent. -/
def hvKeys (v : JValue) : List String :=
  match metaHostvars v with
  | some (.obj fs) => fs.map Prod.fst
  | _ => []

/-- JSON whitespace. -/
def isWs (c : Char) : Bool :=
  c == ' ' || c == '\n' || c == '\t' || c == '\r'

/-- Drop leading JSON whitespace. -/
def skipWs : List Char → List Char
  | [] => []
  | c :: r => if isWs c then skipWs r else c :: r

/-- Indentation emitted by `json.dumps(·, indent=2)` at nesting depth `n`. -/
def pad (n : Nat) : List Char := List.replicate (2 * n) ' '

/-- JSON escape of one character inside a string literal: `"` and `\` get a
backslash escape, control characters a `\u00XX` escape, and any other
character stands for itself. -/
def escChar (c : Char) : List Char :=
  if c = '"' then ['\\', '"']
  else if c = '\\' then ['\\', '\\']
  else if c.toNat < 32 then
    ['\\', 'u', '0', '0', Nat.digitChar (c.toNat / 16), Nat.digitChar (c.toNat % 16)]
  else [c]

/-- JSON escape of a character list. -/
def escStr : List Char → List Char
  | [] => []
  | c :: r => escChar c ++ escStr r

/-- A JSON string literal for `s`, quotes included. -/
def strChars (s : String) : List Char :=
  '"' :: (escStr s.toList ++ ['"'])

/-- Decimal digits of `n` (most significant first), prepended to `acc`;
`fuel`-driven so that it evaluates by kernel reduction. -/
def natCharsF : Nat → Nat → List Char → List Char
  | 0, _, acc => acc
  | fuel + 1, n, acc =>
    if n = 0 then acc else natCharsF fuel (n / 10) (Nat.digitChar (n % 10) :: acc)

/-- Decimal representation of a natural number, as Python's `str`. -/
def natChars (n : Nat) : List Char :=
  if n = 0 then ['0'] else natCharsF n n []

/-- Decimal representation of an integer, as Python's `str`. -/
def intChars (n : Int) : List Char :=
  if n < 0 then '-' :: natChars n.natAbs else natChars n.toNat

mutual
/-- `json.dumps(v, indent=2)` at nesting depth `ind` (see the module comment
for the treatment of non-ASCII characters). -/
def renderV (ind : Nat) : JValue → List Char
  | .null => "null".toList
  | .bool true => "true".toList
  | .bool false => "false".toList
  | .num n => intChars n
  | .str s => strChars s
  | .arr [] => ['[', ']']
  | .arr (v :: rest) =>
    '[' :: '\n' :: (pad (ind + 1) ++ renderItems (ind + 1) (v :: rest) ++
      '\n' :: (pad ind ++ [']']))
  | .obj [] => ['{', '}']
  | .obj (m :: rest) =>
    '{' :: '\n' :: (pad (ind + 1) ++ renderMems (ind + 1) (m :: rest) ++
      '\n' :: (pad ind ++ ['}']))

/-- The comma-separated items of a non-empty JSON array at depth `ind`. -/
def renderItems (ind : Nat) : List JValue → List Char
  | [] => []
  | [v] => renderV ind v
  | v :: v2 :: rest =>
    renderV ind v ++ ',' :: '\n' :: (pad ind ++ renderItems ind (v2 :: rest))

/-- The comma-separated members of a non-empty JSON object at depth `ind`. -/
def renderMems (ind : Nat) : List (String × JValue) → List Char
  | [] => []
  | [(k, v)] => strChars k ++ ':' :: ' ' :: renderV ind v
  | (k, v) :: m2 :: rest =>
    strChars k ++ ':' :: ' ' :: renderV ind v ++
      ',' :: '\n' :: (pad ind ++ renderMems ind (m2 :: rest))
end

/-- The text the script prints: `json.dumps(v, indent=2)`. -/
def dumpsJson (v : JValue) : List Char := renderV 0 v

/-- Value of a hexadecimal digit character. -/
def hexDigitVal (c : Char) : Option Nat :=
  if c.isDigit then some (c.toNat - 48)
  else if 'a' ≤ c && c ≤ 'f' then some (c.toNat - 87)
  else if 'A' ≤ c && c ≤ 'F' then some (c.toNat - 55)
  else none

/-- The character denoted by a single-character escape after a backslash. -/
def unescChar (c : Char) : Option Char :=
  if c = '"' then some '"'
  else if c = '\\' then some '\\'
  else if c = '/' then some '/'
  else if c = 'b' then some (Char.ofNat 8)
  else if c = 'f' then some (Char.ofNat 12)
  else if c = 'n' then some '\n'
  else if c = 'r' then some '\r'
  else if c = 't' then some '\t'
  else none

/-- Parse the body of a JSON string literal (after the opening quote), up to
and including the closing quote; fuelled so that it evaluates by kernel
reduction. -/
def parseStrBodyF : Nat → List Char → Option (List Char × List Char)
  | 0, _ => none
  | _ + 1, [] => none
  | fuel + 1, c :: r =>
    if c = '"' then some ([], r)
    else if c = '\\' then
      match r with
      | [] => none
      | e :: r2 =>
        if e = 'u' then
          match r2 with
          | a :: b :: c2 :: d :: r3 =>
            match hexDigitVal a, hexDigitVal b, hexDigitVal c2, hexDigitVal d with
            | some x, some y, some z, some w =>
              match parseStrBodyF fuel r3 with
              | some (cs, r4) => some (Char.ofNat (((x * 16 + y) * 16 + z) * 16 + w) :: cs, r4)
              | none => none
            | _, _, _, _ => none
          | _ => none
        else
          match unescChar e with
          | some ch =>
            match parseStrBodyF fuel r2 with
            | some (cs, r3) => some (ch :: cs, r3)
            | none => none
          | none => none
    else
      match parseStrBodyF fuel r with
      | some (cs, r2) => some (c :: cs, r2)
      | none => none

/-- Split off the maximal leading run of decimal digits. -/
def digitsSplit : List Char → List Char × List Char
  | [] => ([], [])
  | c :: r =>
    if c.isDigit then
      let p := digitsSplit r
      (c :: p.1, p.2)
    else ([], c :: r)

/-- Value of a digit run, with accumulator. -/
def digitsToNat (acc : Nat) : List Char → Nat
  | [] => acc
  | c :: r => digitsToNat (acc * 10 + (c.toNat - 48)) r

/-- Parse a non-empty run of decimal digits. -/
def parseNat (s : List Char) : Option (Nat × List Char) :=
  match digitsSplit s with
  | ([], _) => none
  | (ds, rest) => some (digitsToNat 0 ds, rest)

/-- Intermediate parse results: a value, the items of an array, or the members
of an object. -/
inductive PRes where
  | val (v : JValue) : PRes
  | items (xs : List JValue) : PRes
  | mems (fs : List (String × JValue)) : PRes

/-- What the recursive parser is asked to parse next. -/
inductive PMode where
  | val : PMode
  | items : PMode
  | mems : PMode

/-- Recursive-descent JSON parser on the integer-number fragment, fuelled so
that it is structurally recursive and evaluates by kernel reduction.  In mode
`.val` it parses one value (after optional whitespace); in mode `.items` the
remaining items of a non-empty array, consuming the closing bracket; in mode
`.mems` the remaining members of a non-empty object, consuming the closing
brace. -/
def parseP : Nat → PMode → List Char → Option (PRes × List Char)
  | 0, _, _ => none
  | fuel + 1, .val, s =>
    match skipWs s with
    | [] => none
    | c :: r =>
      if c = 'n' then
        match r with
        | 'u' :: 'l' :: 'l' :: r2 => some (.val .null, r2)
        | _ => none
      else if c = 't' then
        match r with
        | 'r' :: 'u' :: 'e' :: r2 => some (.val (.bool true), r2)
        | _ => none
      else if c = 'f' then
        match r with
        | 'a' :: 'l' :: 's' :: 'e' :: r2 => some (.val (.bool false), r2)
        | _ => none
      else if c = '"' then
        match parseStrBodyF (r.length + 1) r with
        | some (cs, r2) => some (.val (.str (String.mk cs)), r2)
        | none => none
      else if c = '-' then
        match parseNat r with
        | some (n, r2) => some (.val (.num (-(n : Int))), r2)
        | none => none
      else if c = '[' then
        match skipWs r with
        | [] => none
        | c2 :: r2 =>
          if c2 = ']' then some (.val (.arr []), r2)
          else
            match parseP fuel .items (c2 :: r2) with
            | some (.items xs, r3) => some (.val (.arr xs), r3)
            | _ => none
      else if c = '{' then
        match skipWs r with
        | [] => none
        | c2 :: r2 =>
          if c2 = '}' then some (.val (.obj []), r2)
          else
            match parseP fuel .mems (c2 :: r2) with
            | some (.mems fs, r3) => some (.val (.obj fs), r3)
            | _ => none
      else if c.isDigit then
        match parseNat (c :: r) with
        | some (n, r2) => some (.val (.num (n : Int)), r2)
        | none => none
      else none
  | fuel + 1, .items, s =>
    match parseP fuel .val s with
    | some (.val v, r) =>
      match skipWs r with
      | ',' :: r2 =>
        match parseP fuel .items r2 with
        | some (.items xs, r3) => some (.items (v :: xs), r3)
        | _ => none
      | ']' :: r2 => some (.items [v], r2)
      | _ => none
    | _ => none
  | fuel + 1, .mems, s =>
    match skipWs s with
    | '"' :: r =>
      match parseStrBodyF (r.length + 1) r with
      | some (kcs, r1) =>
        match skipWs r1 with
        | ':' :: r2 =>
          match parseP fuel .val r2 with
          | some (.val v, r3) =>
            match skipWs r3 with
            | ',' :: r4 =>
              match parseP fuel .mems r4 with
              | some (.mems fs, r5) => some (.mems ((String.mk kcs, v) :: fs), r5)
              | _ => none
            | '}' :: r4 => some (.mems [(String.mk kcs, v)], r4)
            | _ => none
          | _ => none
        | _ => none
      | none => none
    | _ => none

/-- `json.loads` on the integer-number fragment: parse one JSON value and
require that only whitespace follows. -/
def parseJson (s : List Char) : Option JValue :=
  match parseP (s.length + 1) .val s with
  | some (.val v, r) => if skipWs r = [] then some v else none
  | _ => none

/-- Script lines 8–26, `get_terraform_output`: run `terraform output -json`
with `check=True` and parse its stdout.  A non-zero exit status raises
`CalledProcessError`, caught on line 21 and turned into `{}`; an unparseable
stdout raises `JSONDecodeError`, caught on line 24 and turned into `{}`; a
failure to launch the process raises `FileNotFoundError`, which no `except`
clause catches. -/
def get_terraform_output : ToolBehavior → Except PyErr JValue
  | .missing => .error .fileNotFound
  | .exits code out =>
    if code = 0 then
      match parseJson out with
      | some v => .ok v
      | none => .ok (.obj [])
    else .ok (.obj [])

/-- Script lines 28–64, `generate_inventory`. -/
def generate_inventory (tb : ToolBehavior) : Except PyErr JValue :=
  match get_terraform_output tb with
  | .ok tf => generate_inventory_from tf
  | .error e => .error e

/-- Script lines 66–68, the `__main__` block: the text printed to stdout
(without the trailing newline `print` adds), or the uncaught exception. -/
def script_stdout (tb : ToolBehavior) : Except PyErr (List Char) :=
  match generate_inventory tb with
  | .ok inv => .ok (dumpsJson inv)
  | .error e => .error e

/-- A character list consisting only of JSON whitespace. -/
def wsOnly (w : List Char) : Prop := ∀ c ∈ w, isWs c = true

/-- The character list does not start with a digit (so it cannot extend a
rendered number). -/
def delim : List Char → Prop
  | [] => True
  | c :: _ => c.isDigit = false

/-- The decimal digit characters of `n`, most significant first. -/
def natDigs (n : Nat) : List Char := natCharsF n n []

mutual
/-- Fuel needed by `parseP` to parse one rendered value. -/
def szV : JValue → Nat
  | .null => 1
  | .bool _ => 1
  | .num _ => 1
  | .str _ => 1
  | .arr xs => szList xs + 1
  | .obj fs => szMems fs + 1

/-- Fuel needed by `parseP` to parse rendered array items. -/
def szList : List JValue → Nat
  | [] => 0
  | v :: r => szV v + szList r + 1

/-- Fuel needed by `parseP` to parse rendered object members. -/
def szMems : List (String × JValue) → Nat
  | [] => 0
  | (_, v) :: r => szV v + szMems r + 1
end

theorem stringMk_toList (s : String) : String.mk s.toList = s := rfl

theorem isDigit_ne {c : Char} (x : Char) (hd : c.isDigit = true)
    (hx : x.isDigit = false) : c ≠ x := by
  intro e
  rw [e, hx] at hd
  cases hd

theorem isWs_of_isDigit {c : Char} (hd : c.isDigit = true) : isWs c = false := by
  have h1 : c ≠ ' ' := isDigit_ne ' ' hd (by decide)
  have h2 : c ≠ '\n' := isDigit_ne '\n' hd (by decide)
  have h3 : c ≠ '\t' := isDigit_ne '\t' hd (by decide)
  have h4 : c ≠ '\r' := isDigit_ne '\r' hd (by decide)
  simp [isWs, h1, h2, h3, h4]

theorem skipWs_cons_not {c : Char} (r : List Char) (h : isWs c = false) :
    skipWs (c :: r) = c :: r := by
  simp [skipWs, h]

theorem skipWs_cons_ws {c : Char} (r : List Char) (h : isWs c = true) :
    skipWs (c :: r) = skipWs r := by
  simp [skipWs, h]

theorem skipWs_append {w : List Char} (hw : wsOnly w) (l : List Char) :
    skipWs (w ++ l) = skipWs l := by
  induction w with
  | nil => rfl
  | cons c r ih =>
    have hc : isWs c = true := hw c (by simp)
    have hr : wsOnly r := fun d hd => hw d (by simp [hd])
    simp only [List.cons_append, skipWs_cons_ws _ hc, ih hr]

theorem wsOnly_nil : wsOnly [] := by
  intro c hc
  cases hc

theorem wsOnly_space : wsOnly [' '] := by
  intro c hc
  simp at hc
  subst hc
  decide

theorem wsOnly_nl_pad (j : Nat) : wsOnly ('\n' :: pad j) := by
  intro c hc
  rcases List.mem_cons.mp hc with h | h
  · subst h; decide
  · rcases List.eq_of_mem_replicate h with rfl
    decide

theorem digitChar_isDigit {k : Nat} (h : k < 10) : (Nat.digitChar k).isDigit = true := by
  interval_cases k <;> decide

theorem digitChar_toNat {k : Nat} (h : k < 10) : (Nat.digitChar k).toNat = k + 48 := by
  interval_cases k <;> decide

theorem natCharsF_spec (n : Nat) : ∀ f acc, n ≤ f → natCharsF f n acc = natDigs n ++ acc := by
  induction n using Nat.strong_induction_on with
  | _ n ih =>
    intro f acc hf
    match n, f with
    | 0, 0 => simp [natCharsF, natDigs]
    | 0, f + 1 => simp [natCharsF, natDigs]
    | m + 1, f + 1 =>
      have hdiv : (m + 1) / 10 < m + 1 := Nat.div_lt_self (Nat.succ_pos m) (by decide)
      have h1 : natCharsF (f + 1) (m + 1) acc =
          natCharsF f ((m + 1) / 10) (Nat.digitChar ((m + 1) % 10) :: acc) := by
        simp [natCharsF]
      have h2 : natDigs (m + 1) =
          natDigs ((m + 1) / 10) ++ [Nat.digitChar ((m + 1) % 10)] := by
        show natCharsF (m + 1) (m + 1) [] = _
        have h3 : natCharsF (m + 1) (m + 1) [] =
            natCharsF m ((m + 1) / 10) [Nat.digitChar ((m + 1) % 10)] := by
          simp [natCharsF]
        rw [h3, ih _ hdiv m _ (by omega)]
      rw [h1, ih _ hdiv f _ (by omega), h2, List.append_assoc]
      rfl

theorem natDigs_decomp {n : Nat} (h : n ≠ 0) :
    natDigs n = natDigs (n / 10) ++ [Nat.digitChar (n % 10)] := by
  match n, h with
  | m + 1, _ =>
    show natCharsF (m + 1) (m + 1) [] = _
    have h3 : natCharsF (m + 1) (m + 1) [] =
        natCharsF m ((m + 1) / 10) [Nat.digitChar ((m + 1) % 10)] := by
      simp [natCharsF]
    have hdiv : (m + 1) / 10 < m + 1 := Nat.div_lt_self (Nat.succ_pos m) (by decide)
    rw [h3, natCharsF_spec _ _ _ (by omega)]

theorem natDigs_digits (n : Nat) : ∀ c ∈ natDigs n, c.isDigit = true := by
  induction n using Nat.strong_induction_on with
  | _ n ih =>
    intro c hc
    by_cases h0 : n = 0
    · subst h0
      simp [natDigs, natCharsF] at hc
    · rw [natDigs_decomp h0] at hc
      rcases List.mem_append.mp hc with h | h
      · exact ih _ (Nat.div_lt_self (Nat.pos_of_ne_zero h0) (by decide)) c h
      · simp at h
        subst h
        exact digitChar_isDigit (Nat.mod_lt _ (by decide))

theorem natDigs_ne_nil {n : Nat} (h : n ≠ 0) : natDigs n ≠ [] := by
  rw [natDigs_decomp h]
  simp

theorem digitsToNat_append (x : List Char) : ∀ y a,
    digitsToNat a (x ++ y) = digitsToNat (digitsToNat a x) y := by
  induction x with
  | nil => intro y a; rfl
  | cons c r ih =>
    intro y a
    rw [List.cons_append]
    show digitsToNat (a * 10 + (c.toNat - 48)) (r ++ y) =
      digitsToNat (digitsToNat (a * 10 + (c.toNat - 48)) r) y
    exact ih y _

theorem digitsToNat_natDigs (n : Nat) : ∀ a,
    digitsToNat a (natDigs n) = a * 10 ^ (natDigs n).length + n := by
  induction n using Nat.strong_induction_on with
  | _ n ih =>
    intro a
    by_cases h0 : n = 0
    · subst h0
      show digitsToNat a [] = a * 10 ^ (natDigs 0).length + 0
      show a = a * 10 ^ (natDigs 0).length + 0
      norm_num [natDigs, natCharsF]
    · have hdiv : n / 10 < n := Nat.div_lt_self (Nat.pos_of_ne_zero h0) (by norm_num)
      rw [natDigs_decomp h0, digitsToNat_append, ih _ hdiv a]
      have hd : (Nat.digitChar (n % 10)).toNat = n % 10 + 48 :=
        digitChar_toNat (Nat.mod_lt _ (by norm_num))
      have hmod : 10 * (n / 10) + n % 10 = n := Nat.div_add_mod n 10
      have hst : digitsToNat (a * 10 ^ (natDigs (n / 10)).length + n / 10)
          [(n % 10).digitChar] =
          (a * 10 ^ (natDigs (n / 10)).length + n / 10) * 10 +
            ((n % 10).digitChar.toNat - 48) := rfl
      rw [hst, hd, List.length_append, List.length_cons, List.length_nil,
        Nat.zero_add, pow_succ, ← mul_assoc]
      omega

theorem digitsSplit_append {ds : List Char} (rest : List Char)
    (hds : ∀ c ∈ ds, c.isDigit = true) (hrest : delim rest) :
    digitsSplit (ds ++ rest) = (ds, rest) := by
  induction ds with
  | nil =>
    match rest, hrest with
    | [], _ => rfl
    | c :: r, h =>
      have h2 : c.isDigit = false := h
      simp [digitsSplit, h2]
  | cons d ds ih =>
    have hd : d.isDigit = true := hds d (by simp)
    have hds2 : ∀ c ∈ ds, c.isDigit = true := fun c hc => hds c (by simp [hc])
    simp [digitsSplit, hd, ih hds2]

theorem parseNat_eval (n : Nat) (rest : List Char) (hrest : delim rest) :
    parseNat (natChars n ++ rest) = some (n, rest) := by
  by_cases h0 : n = 0
  · subst h0
    have h1 : natChars 0 ++ rest = ['0'] ++ rest := rfl
    rw [h1, parseNat, digitsSplit_append rest (by intro c hc; simp at hc; subst hc; decide) hrest]
    rfl
  · have h1 : natChars n = natDigs n := by
      unfold natChars
      rw [if_neg h0]
      rfl
    rw [h1, parseNat, digitsSplit_append rest (natDigs_digits n) hrest]
    have hval : digitsToNat 0 (natDigs n) = n := by
      have := digitsToNat_natDigs n 0
      simpa using this
    rcases List.exists_cons_of_ne_nil (natDigs_ne_nil h0) with ⟨c, t, hct⟩
    rw [hct]
    show some (digitsToNat 0 (c :: t), rest) = some (n, rest)
    rw [← hct, hval]

theorem hexDigitVal_digitChar {k : Nat} (h : k < 16) :
    hexDigitVal (Nat.digitChar k) = some k := by
  interval_cases k <;> decide

theorem escChar_len (c : Char) : 1 ≤ (escChar c).length := by
  unfold escChar
  split
  · simp
  split
  · simp
  split
  · simp
  · simp

theorem escStr_len (cs : List Char) : cs.length ≤ (escStr cs).length := by
  induction cs with
  | nil => simp [escStr]
  | cons c r ih =>
    have := escChar_len c
    simp only [escStr, List.length_append, List.length_cons]
    omega

theorem parseStrBody_rt : ∀ (cs : List Char) (fuel : Nat) (rest : List Char),
    cs.length + 1 ≤ fuel →
    parseStrBodyF fuel (escStr cs ++ ('"' :: rest)) = some (cs, rest) := by
  intro cs
  induction cs with
  | nil =>
    intro fuel rest hf
    match fuel, hf with
    | f + 1, _ =>
      show parseStrBodyF (f + 1) ('"' :: rest) = some ([], rest)
      simp [parseStrBodyF]
  | cons c cs ih =>
    intro fuel rest hf
    match fuel, hf with
    | f + 1, hf =>
      have hf2 : cs.length + 1 ≤ f := by
        simp only [List.length_cons] at hf
        omega
      by_cases h1 : c = '"'
      · subst h1
        have he : escStr ('"' :: cs) = '\\' :: '"' :: escStr cs := by
          simp [escStr, escChar]
        rw [he]
        simp only [List.cons_append]
        simp [parseStrBodyF, unescChar, ih f rest hf2]
      · by_cases h2 : c = '\\'
        · subst h2
          have he : escStr ('\\' :: cs) = '\\' :: '\\' :: escStr cs := by
            simp [escStr, escChar]
          rw [he]
          simp only [List.cons_append]
          simp [parseStrBodyF, unescChar, ih f rest hf2]
        · by_cases h3 : c.toNat < 32
          · have he : escStr (c :: cs) =
                '\\' :: 'u' :: '0' :: '0' :: Nat.digitChar (c.toNat / 16) ::
                  Nat.digitChar (c.toNat % 16) :: escStr cs := by
              simp [escStr, escChar, h1, h2, h3]
            rw [he]
            simp only [List.cons_append]
            have hq : hexDigitVal (Nat.digitChar (c.toNat / 16)) = some (c.toNat / 16) :=
              hexDigitVal_digitChar (by omega)
            have hm : hexDigitVal (Nat.digitChar (c.toNat % 16)) = some (c.toNat % 16) :=
              hexDigitVal_digitChar (Nat.mod_lt _ (by norm_num))
            have h0 : hexDigitVal '0' = some 0 := by decide
            simp only [List.cons_append] at *
            simp [parseStrBodyF, h0, hq, hm, ih f rest hf2]
            have hval : c.toNat / 16 * 16 + c.toNat % 16 = c.toNat := by omega
            rw [hval, Char.ofNat_toNat]
          · have he : escStr (c :: cs) = c :: escStr cs := by
              simp [escStr, escChar, h1, h2, h3]
            rw [he]
            simp only [List.cons_append]
            simp [parseStrBodyF, h1, h2, ih f rest hf2]

theorem natChars_head (n : Nat) : ∃ c t, natChars n = c :: t ∧ c.isDigit = true := by
  by_cases h0 : n = 0
  · subst h0
    exact ⟨'0', [], rfl, by decide⟩
  · have h1 : natChars n = natDigs n := by
      unfold natChars
      rw [if_neg h0]
      rfl
    rcases List.exists_cons_of_ne_nil (natDigs_ne_nil h0) with ⟨c, t, hct⟩
    refine ⟨c, t, h1.trans hct, ?_⟩
    exact natDigs_digits n c (by rw [hct]; simp)

theorem renderV_head (ind : Nat) (v : JValue) :
    ∃ c t, renderV ind v = c :: t ∧ isWs c = false ∧ c ≠ ']' ∧ c ≠ '}' := by
  cases v with
  | null => exact ⟨'n', _, rfl, by decide, by decide, by decide⟩
  | bool b =>
    cases b
    · exact ⟨'f', _, rfl, by decide, by decide, by decide⟩
    · exact ⟨'t', _, rfl, by decide, by decide, by decide⟩
  | num n =>
    by_cases hn : n < 0
    · refine ⟨'-', natChars n.natAbs, ?_, by decide, by decide, by decide⟩
      show intChars n = _
      simp [intChars, hn]
    · rcases natChars_head n.toNat with ⟨c, t, hct, hd⟩
      refine ⟨c, t, ?_, isWs_of_isDigit hd, isDigit_ne ']' hd (by decide),
        isDigit_ne '}' hd (by decide)⟩
      show intChars n = _
      simp [intChars, hn, hct]
  | str s => exact ⟨'"', _, rfl, by decide, by decide, by decide⟩
  | arr xs =>
    cases xs
    · exact ⟨'[', _, rfl, by decide, by decide, by decide⟩
    · exact ⟨'[', _, rfl, by decide, by decide, by decide⟩
  | obj fs =>
    cases fs
    · exact ⟨'{', _, rfl, by decide, by decide, by decide⟩
    · exact ⟨'{', _, rfl, by decide, by decide, by decide⟩

theorem renderItems_head (ind : Nat) (v : JValue) (vr : List JValue) :
    ∃ c t, renderItems ind (v :: vr) = c :: t ∧ isWs c = false ∧ c ≠ ']' ∧ c ≠ '}' := by
  rcases renderV_head ind v with ⟨c, t, hct, h1, h2, h3⟩
  cases vr with
  | nil => exact ⟨c, t, hct, h1, h2, h3⟩
  | cons v2 vr2 =>
    refine ⟨c, t ++ (',' :: '\n' :: (pad ind ++ renderItems ind (v2 :: vr2))), ?_, h1, h2, h3⟩
    show renderV ind v ++ _ = _
    rw [hct]
    rfl

theorem renderMems_head (ind : Nat) (k : String) (v : JValue)
    (mr : List (String × JValue)) :
    ∃ t, renderMems ind ((k, v) :: mr) = '"' :: t := by
  cases mr with
  | nil =>
    refine ⟨(escStr k.toList ++ ['"']) ++ (':' :: ' ' :: renderV ind v), ?_⟩
    show strChars k ++ _ = _
    rw [strChars]
    simp
  | cons m2 mr2 =>
    refine ⟨escStr k.toList ++ '"' :: ':' :: ' ' :: (renderV ind v ++
      ',' :: '\n' :: (pad ind ++ renderMems ind (m2 :: mr2))), ?_⟩
    simp [renderMems, strChars]

theorem szV_pos (v : JValue) : 1 ≤ szV v := by
  cases v <;> simp [szV]

mutual
theorem szV_le_render (v : JValue) (ind : Nat) : szV v ≤ (renderV ind v).length := by
  cases v with
  | null => simp [szV, renderV]
  | bool b => cases b <;> simp [szV, renderV]
  | num n =>
    rcases renderV_head ind (.num n) with ⟨c, t, hct, _⟩
    rw [hct]
    simp [szV]
  | str s => simp [szV, renderV, strChars]
  | arr xs =>
    cases xs with
    | nil => simp [szV, szList, renderV]
    | cons v vr =>
      have h := szList_le_render (v :: vr) (ind + 1)
      simp only [szV, renderV, List.length_cons, List.length_append, pad,
        List.length_replicate]
      omega
  | obj fs =>
    cases fs with
    | nil => simp [szV, szMems, renderV]
    | cons m mr =>
      have h := szMems_le_render (m :: mr) (ind + 1)
      simp only [szV, renderV, List.length_cons, List.length_append, pad,
        List.length_replicate]
      omega

theorem szList_le_render (xs : List JValue) (ind : Nat) :
    szList xs ≤ (renderItems ind xs).length + 1 := by
  cases xs with
  | nil => simp [szList]
  | cons v vr =>
    cases vr with
    | nil =>
      have h := szV_le_render v ind
      simp only [szList, renderItems]
      omega
    | cons v2 vr2 =>
      have h1 := szV_le_render v ind
      have h2 := szList_le_render (v2 :: vr2) ind
      have h3 : szList (v2 :: vr2) = szV v2 + szList vr2 + 1 := rfl
      simp only [szList, renderItems, List.length_append, List.length_cons, pad,
        List.length_replicate]
      omega

theorem szMems_le_render (fs : List (String × JValue)) (ind : Nat) :
    szMems fs ≤ (renderMems ind fs).length + 1 := by
  cases fs with
  | nil => simp [szMems]
  | cons m mr =>
    rcases m with ⟨k, v⟩
    cases mr with
    | nil =>
      have h := szV_le_render v ind
      simp only [szMems, renderMems, List.length_append, List.length_cons]
      omega
    | cons m2 mr2 =>
      have h1 := szV_le_render v ind
      have h2 := szMems_le_render (m2 :: mr2) ind
      have h3 : szMems (m2 :: mr2) = szV m2.2 + szMems mr2 + 1 := by
        rcases m2 with ⟨k2, v2⟩
        rfl
      simp only [szMems, renderMems, List.length_append, List.length_cons, pad,
        List.length_replicate]
      omega
end

theorem delim_cons {c : Char} (r : List Char) (h : c.isDigit = false) :
    delim (c :: r) := h

theorem delim_nil : delim [] := trivial

theorem skipWs_resolve {w : List Char} (hw : wsOnly w) {c : Char}
    (hc : isWs c = false) (t : List Char) : skipWs (w ++ (c :: t)) = c :: t := by
  rw [skipWs_append hw, skipWs_cons_not _ hc]

theorem parse_render_master (fuel : Nat) :
    (∀ v ind rest w, wsOnly w → szV v ≤ fuel → delim rest →
       parseP fuel .val (w ++ (renderV ind v ++ rest)) = some (.val v, rest)) ∧
    (∀ xs ind jnd rest w, wsOnly w → xs ≠ [] → szList xs ≤ fuel →
       parseP fuel .items
         (w ++ (renderItems ind xs ++ ('\n' :: (pad jnd ++ (']' :: rest))))) =
         some (.items xs, rest)) ∧
    (∀ fs ind jnd rest w, wsOnly w → fs ≠ [] → szMems fs ≤ fuel →
       parseP fuel .mems
         (w ++ (renderMems ind fs ++ ('\n' :: (pad jnd ++ ('}' :: rest))))) =
         some (.mems fs, rest)) := by
  induction fuel with
  | zero =>
    refine ⟨?_, ?_, ?_⟩
    · intro v ind rest w _ hsz _
      have := szV_pos v
      omega
    · intro xs ind jnd rest w _ hne hsz
      cases xs with
      | nil => exact absurd rfl hne
      | cons v vr =>
        have h1 : szList (v :: vr) = szV v + szList vr + 1 := rfl
        have := szV_pos v
        omega
    · intro fs ind jnd rest w _ hne hsz
      cases fs with
      | nil => exact absurd rfl hne
      | cons m mr =>
        have h1 : szMems (m :: mr) = szV m.2 + szMems mr + 1 := by
          rcases m with ⟨k, v⟩
          rfl
        have := szV_pos m.2
        omega
  | succ f ih =>
    obtain ⟨Pf, Qf, Rf⟩ := ih
    refine ⟨?_, ?_, ?_⟩
    · -- mode .val
      intro v ind rest w hw hsz hd
      cases v with
      | null =>
        have hs : skipWs (w ++ (renderV ind .null ++ rest)) =
            'n' :: 'u' :: 'l' :: 'l' :: rest :=
          skipWs_resolve hw (by decide) _
        simp only [parseP, hs]
        simp
      | bool b =>
        cases b with
        | true =>
          have hs : skipWs (w ++ (renderV ind (.bool true) ++ rest)) =
              't' :: 'r' :: 'u' :: 'e' :: rest :=
            skipWs_resolve hw (by decide) _
          simp only [parseP, hs]
          simp
        | false =>
          have hs : skipWs (w ++ (renderV ind (.bool false) ++ rest)) =
              'f' :: 'a' :: 'l' :: 's' :: 'e' :: rest :=
            skipWs_resolve hw (by decide) _
          simp only [parseP, hs]
          simp
      | str s =>
        have hr : renderV ind (.str s) ++ rest =
            '"' :: (escStr s.toList ++ ('"' :: rest)) := by
          show strChars s ++ rest = _
          rw [strChars]
          simp
        have hs : skipWs (w ++ (renderV ind (.str s) ++ rest)) =
            '"' :: (escStr s.toList ++ ('"' :: rest)) := by
          rw [hr] at *
          exact skipWs_resolve hw (by decide) _
        have hfuel : s.toList.length + 1 ≤ (escStr s.toList ++ ('"' :: rest)).length + 1 := by
          have := escStr_len s.toList
          simp only [List.length_append, List.length_cons]
          omega
        simp only [parseP, hs]
        have hrt : parseStrBodyF ((escStr s.toList ++ ('"' :: rest)).length + 1)
            (escStr s.toList ++ ('"' :: rest)) = some (s.toList, rest) :=
          parseStrBody_rt s.toList _ rest hfuel
        rw [hrt]
        rfl
      | num n =>
        by_cases hn : n < 0
        · have hr : renderV ind (.num n) ++ rest =
              '-' :: (natChars n.natAbs ++ rest) := by
            show intChars n ++ rest = _
            simp [intChars, hn]
          have hs : skipWs (w ++ (renderV ind (.num n) ++ rest)) =
              '-' :: (natChars n.natAbs ++ rest) := by
            rw [hr] at *
            exact skipWs_resolve hw (by decide) _
          simp only [parseP, hs]
          have hpn := parseNat_eval n.natAbs rest hd
          have hcast : -((n.natAbs : Nat) : Int) = n := by omega
          rw [if_neg (by decide), if_neg (by decide), if_neg (by decide),
            if_neg (by decide), if_pos trivial, hpn]
          show some (PRes.val (JValue.num (-((n.natAbs : Nat) : Int))), rest) =
            some (PRes.val (JValue.num n), rest)
          rw [hcast]
        · rcases natChars_head n.toNat with ⟨c, t, hct, hcd⟩
          have hr : renderV ind (.num n) ++ rest = c :: (t ++ rest) := by
            show intChars n ++ rest = _
            simp [intChars, hn, hct]
          have hs : skipWs (w ++ (renderV ind (.num n) ++ rest)) =
              c :: (t ++ rest) := by
            rw [hr] at *
            exact skipWs_resolve hw (isWs_of_isDigit hcd) _
          simp only [parseP, hs]
          rw [if_neg (isDigit_ne 'n' hcd (by decide)),
            if_neg (isDigit_ne 't' hcd (by decide)),
            if_neg (isDigit_ne 'f' hcd (by decide)),
            if_neg (isDigit_ne '"' hcd (by decide)),
            if_neg (isDigit_ne '-' hcd (by decide)),
            if_neg (isDigit_ne '[' hcd (by decide)),
            if_neg (isDigit_ne '{' hcd (by decide)),
            if_pos hcd]
          have hback : c :: (t ++ rest) = natChars n.toNat ++ rest := by
            rw [hct]
            rfl
          rw [hback, parseNat_eval n.toNat rest hd]
          have hcast : ((n.toNat : Nat) : Int) = n := by omega
          simp [hcast]
      | arr xs =>
        cases xs with
        | nil =>
          have hs : skipWs (w ++ (renderV ind (.arr []) ++ rest)) =
              '[' :: (']' :: rest) :=
            skipWs_resolve hw (by decide) _
          have hs2 : skipWs (']' :: rest) = ']' :: rest :=
            skipWs_cons_not _ (by decide)
          simp only [parseP, hs, hs2]
          simp
        | cons v vr =>
          rcases renderItems_head (ind + 1) v vr with ⟨c, t, hct, hcw, hcb, _⟩
          have hr : renderV ind (.arr (v :: vr)) ++ rest =
              '[' :: ('\n' :: (pad (ind + 1) ++
                (renderItems (ind + 1) (v :: vr) ++
                  ('\n' :: (pad ind ++ (']' :: rest)))))) := by
            show ('[' :: '\n' :: (pad (ind + 1) ++ renderItems (ind + 1) (v :: vr) ++
              '\n' :: (pad ind ++ [']']))) ++ rest = _
            simp
          have hs : skipWs (w ++ (renderV ind (.arr (v :: vr)) ++ rest)) =
              '[' :: ('\n' :: (pad (ind + 1) ++
                (renderItems (ind + 1) (v :: vr) ++
                  ('\n' :: (pad ind ++ (']' :: rest)))))) := by
            rw [hr] at *
            exact skipWs_resolve hw (by decide) _
          have hs2 : skipWs ('\n' :: (pad (ind + 1) ++
              (renderItems (ind + 1) (v :: vr) ++
                ('\n' :: (pad ind ++ (']' :: rest)))))) =
              c :: (t ++ ('\n' :: (pad ind ++ (']' :: rest)))) := by
            rw [hct]
            have := skipWs_resolve (wsOnly_nl_pad (ind + 1)) hcw
              (t ++ ('\n' :: (pad ind ++ (']' :: rest))))
            simpa using this
          have hsz2 : szList (v :: vr) ≤ f := by
            have h1 : szV (.arr (v :: vr)) = szList (v :: vr) + 1 := rfl
            omega
          have hq := Qf (v :: vr) (ind + 1) ind rest [] wsOnly_nil (by simp) hsz2
          simp only [List.nil_append] at hq
          have hback : c :: (t ++ ('\n' :: (pad ind ++ (']' :: rest)))) =
              renderItems (ind + 1) (v :: vr) ++ ('\n' :: (pad ind ++ (']' :: rest))) := by
            rw [hct]
            rfl
          simp only [parseP, hs, hs2]
          rw [hback, hq]
          simp [if_neg hcb]
      | obj fs =>
        cases fs with
        | nil =>
          have hs : skipWs (w ++ (renderV ind (.obj []) ++ rest)) =
              '{' :: ('}' :: rest) :=
            skipWs_resolve hw (by decide) _
          have hs2 : skipWs ('}' :: rest) = '}' :: rest :=
            skipWs_cons_not _ (by decide)
          simp only [parseP, hs, hs2]
          simp
        | cons m mr =>
          rcases m with ⟨k, v⟩
          rcases renderMems_head (ind + 1) k v mr with ⟨t, hct⟩
          have hr : renderV ind (.obj ((k, v) :: mr)) ++ rest =
              '{' :: ('\n' :: (pad (ind + 1) ++
                (renderMems (ind + 1) ((k, v) :: mr) ++
                  ('\n' :: (pad ind ++ ('}' :: rest)))))) := by
            show ('{' :: '\n' :: (pad (ind + 1) ++ renderMems (ind + 1) ((k, v) :: mr) ++
              '\n' :: (pad ind ++ ['}']))) ++ rest = _
            simp
          have hs : skipWs (w ++ (renderV ind (.obj ((k, v) :: mr)) ++ rest)) =
              '{' :: ('\n' :: (pad (ind + 1) ++
                (renderMems (ind + 1) ((k, v) :: mr) ++
                  ('\n' :: (pad ind ++ ('}' :: rest)))))) := by
            rw [hr] at *
            exact skipWs_resolve hw (by decide) _
          have hs2 : skipWs ('\n' :: (pad (ind + 1) ++
              (renderMems (ind + 1) ((k, v) :: mr) ++
                ('\n' :: (pad ind ++ ('}' :: rest)))))) =
              '"' :: (t ++ ('\n' :: (pad ind ++ ('}' :: rest)))) := by
            rw [hct]
            have := skipWs_resolve (wsOnly_nl_pad (ind + 1))
              (show isWs '"' = false by decide)
              (t ++ ('\n' :: (pad ind ++ ('}' :: rest))))
            simpa using this
          have hsz2 : szMems ((k, v) :: mr) ≤ f := by
            have h1 : szV (.obj ((k, v) :: mr)) = szMems ((k, v) :: mr) + 1 := rfl
            omega
          have hq := Rf ((k, v) :: mr) (ind + 1) ind rest [] wsOnly_nil (by simp) hsz2
          simp only [List.nil_append] at hq
          have hback : '"' :: (t ++ ('\n' :: (pad ind ++ ('}' :: rest)))) =
              renderMems (ind + 1) ((k, v) :: mr) ++
                ('\n' :: (pad ind ++ ('}' :: rest))) := by
            rw [hct]
            rfl
          simp only [parseP, hs, hs2]
          rw [hback, hq]
          simp
    · -- mode .items
      intro xs ind jnd rest w hw hne hsz
      cases xs with
      | nil => exact absurd rfl hne
      | cons v vr =>
        have hszv : szV v ≤ f := by
          have h1 : szList (v :: vr) = szV v + szList vr + 1 := rfl
          omega
        cases vr with
        | nil =>
          have hr : w ++ (renderItems ind [v] ++ ('\n' :: (pad jnd ++ (']' :: rest)))) =
              w ++ (renderV ind v ++ ('\n' :: (pad jnd ++ (']' :: rest)))) := rfl
          have hp := Pf v ind ('\n' :: (pad jnd ++ (']' :: rest))) w hw hszv
            (delim_cons _ (by decide))
          have hs2 : skipWs ('\n' :: (pad jnd ++ (']' :: rest))) = ']' :: rest :=
            skipWs_resolve (wsOnly_nl_pad jnd) (by decide) rest
          simp only [parseP, hr, hp, hs2]
        | cons v2 vr2 =>
          have hr : w ++ (renderItems ind (v :: v2 :: vr2) ++
              ('\n' :: (pad jnd ++ (']' :: rest)))) =
              w ++ (renderV ind v ++ (',' :: ('\n' :: (pad ind ++
                (renderItems ind (v2 :: vr2) ++
                  ('\n' :: (pad jnd ++ (']' :: rest)))))))) := by
            show w ++ ((renderV ind v ++ ',' :: '\n' :: (pad ind ++
              renderItems ind (v2 :: vr2))) ++ ('\n' :: (pad jnd ++ (']' :: rest)))) = _
            simp
          have hp := Pf v ind (',' :: ('\n' :: (pad ind ++
              (renderItems ind (v2 :: vr2) ++ ('\n' :: (pad jnd ++ (']' :: rest)))))))
            w hw hszv (delim_cons _ (by decide))
          have hs2 : skipWs (',' :: ('\n' :: (pad ind ++
              (renderItems ind (v2 :: vr2) ++ ('\n' :: (pad jnd ++ (']' :: rest))))))) =
              ',' :: ('\n' :: (pad ind ++
              (renderItems ind (v2 :: vr2) ++ ('\n' :: (pad jnd ++ (']' :: rest)))))) :=
            skipWs_cons_not _ (by decide)
          have hsz2 : szList (v2 :: vr2) ≤ f := by
            have h1 : szList (v :: v2 :: vr2) = szV v + szList (v2 :: vr2) + 1 := rfl
            have := szV_pos v
            omega
          have hq := Qf (v2 :: vr2) ind jnd rest ('\n' :: pad ind)
            (wsOnly_nl_pad ind) (by simp) hsz2
          simp only [List.cons_append] at hq
          rw [hr]
          simp only [parseP, hp, hs2, hq]
    · -- mode .mems
      intro fs ind jnd rest w hw hne hsz
      cases fs with
      | nil => exact absurd rfl hne
      | cons m mr =>
        rcases m with ⟨k, v⟩
        have hszv : szV v ≤ f := by
          have h1 : szMems ((k, v) :: mr) = szV v + szMems mr + 1 := rfl
          omega
        cases mr with
        | nil =>
          have hr : w ++ (renderMems ind [(k, v)] ++
              ('\n' :: (pad jnd ++ ('}' :: rest)))) =
              w ++ ('"' :: ((escStr k.toList ++ ('"' :: (':' :: (' ' ::
                (renderV ind v ++ ('\n' :: (pad jnd ++ ('}' :: rest)))))))))) := by
            show w ++ ((strChars k ++ ':' :: ' ' :: renderV ind v) ++
              ('\n' :: (pad jnd ++ ('}' :: rest)))) = _
            rw [strChars]
            simp
          have hs : skipWs (w ++ ('"' :: ((escStr k.toList ++ ('"' :: (':' :: (' ' ::
              (renderV ind v ++ ('\n' :: (pad jnd ++ ('}' :: rest)))))))))) ) =
              '"' :: ((escStr k.toList ++ ('"' :: (':' :: (' ' ::
              (renderV ind v ++ ('\n' :: (pad jnd ++ ('}' :: rest))))))))) :=
            skipWs_resolve hw (by decide) _
          have hfuel : k.toList.length + 1 ≤
              ((escStr k.toList ++ ('"' :: (':' :: (' ' ::
                (renderV ind v ++ ('\n' :: (pad jnd ++ ('}' :: rest))))))))).length + 1 := by
            have := escStr_len k.toList
            simp only [List.length_append, List.length_cons]
            omega
          have hstr := parseStrBody_rt k.toList _
            (':' :: (' ' :: (renderV ind v ++ ('\n' :: (pad jnd ++ ('}' :: rest))))))
            hfuel
          have hs3 : skipWs (':' :: (' ' :: (renderV ind v ++
              ('\n' :: (pad jnd ++ ('}' :: rest)))))) =
              ':' :: (' ' :: (renderV ind v ++ ('\n' :: (pad jnd ++ ('}' :: rest))))) :=
            skipWs_cons_not _ (by decide)
          have hp := Pf v ind ('\n' :: (pad jnd ++ ('}' :: rest))) [' ']
            wsOnly_space hszv (delim_cons _ (by decide))
          simp only [List.singleton_append] at hp
          have hs4 : skipWs ('\n' :: (pad jnd ++ ('}' :: rest))) = '}' :: rest :=
            skipWs_resolve (wsOnly_nl_pad jnd) (by decide) rest
          rw [hr]
          simp only [parseP, hs, hstr, hs3, hp, hs4, stringMk_toList]
        | cons m2 mr2 =>
          rcases m2 with ⟨k2, v2⟩
          have hr : w ++ (renderMems ind ((k, v) :: (k2, v2) :: mr2) ++
              ('\n' :: (pad jnd ++ ('}' :: rest)))) =
              w ++ ('"' :: ((escStr k.toList ++ ('"' :: (':' :: (' ' ::
                (renderV ind v ++ (',' :: ('\n' :: (pad ind ++
                  (renderMems ind ((k2, v2) :: mr2) ++
                    ('\n' :: (pad jnd ++ ('}' :: rest))))))))))))))  := by
            show w ++ ((strChars k ++ ':' :: ' ' :: renderV ind v ++
              ',' :: '\n' :: (pad ind ++ renderMems ind ((k2, v2) :: mr2))) ++
              ('\n' :: (pad jnd ++ ('}' :: rest)))) = _
            rw [strChars]
            simp
          have hs : skipWs (w ++ ('"' :: ((escStr k.toList ++ ('"' :: (':' :: (' ' ::
              (renderV ind v ++ (',' :: ('\n' :: (pad ind ++
                (renderMems ind ((k2, v2) :: mr2) ++
                  ('\n' :: (pad jnd ++ ('}' :: rest)))))))))))))) ) =
              '"' :: ((escStr k.toList ++ ('"' :: (':' :: (' ' ::
              (renderV ind v ++ (',' :: ('\n' :: (pad ind ++
                (renderMems ind ((k2, v2) :: mr2) ++
                  ('\n' :: (pad jnd ++ ('}' :: rest)))))))))))))  :=
            skipWs_resolve hw (by decide) _
          have hfuel : k.toList.length + 1 ≤
              ((escStr k.toList ++ ('"' :: (':' :: (' ' ::
                (renderV ind v ++ (',' :: ('\n' :: (pad ind ++
                  (renderMems ind ((k2, v2) :: mr2) ++
                    ('\n' :: (pad jnd ++ ('}' :: rest))))))))))))).length + 1 := by
            have := escStr_len k.toList
            simp only [List.length_append, List.length_cons]
            omega
          have hstr := parseStrBody_rt k.toList _
            (':' :: (' ' :: (renderV ind v ++ (',' :: ('\n' :: (pad ind ++
              (renderMems ind ((k2, v2) :: mr2) ++
                ('\n' :: (pad jnd ++ ('}' :: rest))))))))))
            hfuel
          have hs3 : skipWs (':' :: (' ' :: (renderV ind v ++ (',' :: ('\n' :: (pad ind ++
              (renderMems ind ((k2, v2) :: mr2) ++
                ('\n' :: (pad jnd ++ ('}' :: rest)))))))))) =
              ':' :: (' ' :: (renderV ind v ++ (',' :: ('\n' :: (pad ind ++
              (renderMems ind ((k2, v2) :: mr2) ++
                ('\n' :: (pad jnd ++ ('}' :: rest))))))))) :=
            skipWs_cons_not _ (by decide)
          have hp := Pf v ind (',' :: ('\n' :: (pad ind ++
              (renderMems ind ((k2, v2) :: mr2) ++
                ('\n' :: (pad jnd ++ ('}' :: rest))))))) [' ']
            wsOnly_space hszv (delim_cons _ (by decide))
          simp only [List.singleton_append] at hp
          have hs4 : skipWs (',' :: ('\n' :: (pad ind ++
              (renderMems ind ((k2, v2) :: mr2) ++
                ('\n' :: (pad jnd ++ ('}' :: rest))))))) =
              ',' :: ('\n' :: (pad ind ++
              (renderMems ind ((k2, v2) :: mr2) ++
                ('\n' :: (pad jnd ++ ('}' :: rest)))))) :=
            skipWs_cons_not _ (by decide)
          have hsz2 : szMems ((k2, v2) :: mr2) ≤ f := by
            have h1 : szMems ((k, v) :: (k2, v2) :: mr2) =
                szV v + szMems ((k2, v2) :: mr2) + 1 := rfl
            have := szV_pos v
            omega
          have hq := Rf ((k2, v2) :: mr2) ind jnd rest ('\n' :: pad ind)
            (wsOnly_nl_pad ind) (by simp) hsz2
          simp only [List.cons_append] at hq
          rw [hr]
          simp only [parseP, hs, hstr, hs3, hp, hs4, hq, stringMk_toList]

theorem parseJson_dumps (v : JValue) : parseJson (dumpsJson v) = some v := by
  have hsz : szV v ≤ (renderV 0 v).length + 1 := by
    have := szV_le_render v 0
    omega
  have hp := (parse_render_master ((renderV 0 v).length + 1)).1 v 0 [] []
    wsOnly_nil hsz delim_nil
  simp only [List.nil_append, List.append_nil] at hp
  show (match parseP ((renderV 0 v).length + 1) .val (renderV 0 v) with
    | some (.val u, r) => if skipWs r = [] then some u else none
    | _ => none) = some v
  rw [hp]
  rfl

theorem pyTruthy_obj_of_ne {fs : List (String × JValue)} (h : fs ≠ []) :
    pyTruthy (.obj fs) = true := by
  cases fs with
  | nil => exact absurd rfl h
  | cons p r => rfl

theorem gen_from_shape {tf inv : JValue} (h : generate_inventory_from tf = .ok inv) :
    inv = emptyDoc ∨ inv = inventoryDoc [] [] ∨
      ∃ nm pub priv, inv = inventoryDoc [.str nm] [(nm, hostEntry pub priv nm)] := by
  unfold generate_inventory_from at h
  repeat' split at h
  all_goals try exact Except.noConfusion h
  all_goals injection h with h
  all_goals first
    | exact Or.inl h.symm
    | exact Or.inr (Or.inl h.symm)
    | exact Or.inr (Or.inr ⟨_, _, _, h.symm⟩)

theorem gen_from_truthy_shape {tf inv : JValue} (ht : pyTruthy tf = true)
    (h : generate_inventory_from tf = .ok inv) :
    ∃ hs hv, inv = inventoryDoc hs hv := by
  unfold generate_inventory_from at h
  rw [ht] at h
  simp only [if_true] at h
  repeat' split at h
  all_goals try exact Except.noConfusion h
  all_goals injection h with h
  all_goals exact ⟨_, _, h.symm⟩

theorem generate_inventory_ok {tb : ToolBehavior} {inv : JValue}
    (h : generate_inventory tb = .ok inv) :
    ∃ tf, get_terraform_output tb = .ok tf ∧ generate_inventory_from tf = .ok inv := by
  unfold generate_inventory at h
  split at h
  next tf heq => exact ⟨tf, heq, h⟩
  next e heq => exact Except.noConfusion h

/-- C1: for every provisioning-tool output document containing a
`vm_connection` entry whose value has a string `vm_name` field and a non-empty
`public_ip`, the generated inventory has exactly one host in the `webservers`
group's `hosts` list, that host's name equals the `vm_name` field, and
`_meta.hostvars` maps that name to an entry whose `ansible_host` equals the
`public_ip`. -/
theorem claim1 (fs wf conn : List (String × JValue)) (name ip : String)
    (h1 : alookup fs "vm_connection" = some (.obj wf))
    (h2 : alookup wf "value" = some (.obj conn))
    (h3 : alookup conn "vm_name" = some (.str name))
    (h4 : alookup conn "public_ip" = some (.str ip))
    (h5 : ip ≠ "") :
    ∃ inv, generate_inventory_from (.obj fs) = .ok inv ∧
      hostsList inv = [JValue.str name] ∧
      ∃ entry, metaHostvars inv = some (.obj [(name, entry)]) ∧
        docLookup entry "ansible_host" = some (.str ip) := by
  have hne : fs ≠ [] := by
    intro e
    subst e
    exact Option.noConfusion h1
  have ht : pyTruthy (.obj fs) = true := pyTruthy_obj_of_ne hne
  have hip : pyTruthy (.str ip) = true := by
    simp [pyTruthy, h5]
  refine ⟨inventoryDoc [.str name]
    [(name, hostEntry (.str ip) ((alookup conn "private_ip").getD (.str "")) name)],
    ?_, rfl, _, rfl, rfl⟩
  unfold generate_inventory_from
  rw [ht]
  simp only [if_true, pyContains, h1, Option.isSome_some, pySubscript, pyGet, h2,
    h3, h4, Option.getD_some, hip]

/-- C1 witness: a concrete document with a `vm_connection` value exercising
`claim1`. -/
theorem claim1_witness :
    ∃ inv, generate_inventory_from
        (.obj [("vm_connection", .obj [("value", .obj
          [("vm_name", .str "web-vm"), ("public_ip", .str "1.2.3.4"),
           ("private_ip", .str "10.0.0.4")])])]) = .ok inv ∧
      hostsList inv = [JValue.str "web-vm"] ∧
      ∃ entry, metaHostvars inv = some (.obj [("web-vm", entry)]) ∧
        docLookup entry "ansible_host" = some (.str "1.2.3.4") :=
  claim1 _ _ _ "web-vm" "1.2.3.4" rfl rfl rfl rfl (by decide)

/-- C2 counterexample: when the provisioning tool's binary is absent from the
executable search path, `subprocess.run` raises `FileNotFoundError`, which no
`except` clause of the script catches: the script does not print an empty
inventory but propagates the error as a process failure, contradicting the
claim that every failure to invoke the tool degrades to an empty inventory. -/
theorem claim2_counterexample :
    script_stdout ToolBehavior.missing = Except.error PyErr.fileNotFound := rfl

/-- C2 (amended): for the failures the script anticipates — the tool exiting
with a non-zero status, or the tool's stdout failing to parse as JSON — the
script prints the empty inventory document and does not propagate the error to
the caller; a failure to launch the tool binary (such as the binary being
absent from the executable search path) is, however, an uncaught exception. -/
theorem claim2_amended (code : Nat) (out : List Char)
    (h : code ≠ 0 ∨ parseJson out = none) :
    script_stdout (.exits code out) = .ok (dumpsJson emptyDoc) := by
  simp only [script_stdout, generate_inventory, get_terraform_output]
  by_cases hc : code = 0
  · subst hc
    rcases h with h | h
    · exact absurd rfl h
    · rw [if_pos rfl, h]
      rfl
  · rw [if_neg hc]
    rfl

/-- C2 witness: a non-zero exit status produces the empty inventory on
stdout. -/
theorem claim2_witness : script_stdout (.exits 1 ['x']) = .ok (dumpsJson emptyDoc) :=
  claim2_amended 1 ['x'] (Or.inl (by decide))

/-- C3: whenever the external tool exits with a non-zero status, the document
the script prints is exactly the empty inventory
`{"_meta": {"hostvars": {}}}`. -/
theorem claim3 (code : Nat) (out : List Char) (h : code ≠ 0) :
    generate_inventory (.exits code out) = .ok emptyDoc ∧
    script_stdout (.exits code out) = .ok (dumpsJson emptyDoc) := by
  constructor
  · simp only [generate_inventory, get_terraform_output]
    rw [if_neg h]
    rfl
  · simp only [script_stdout, generate_inventory, get_terraform_output]
    rw [if_neg h]
    rfl

/-- C3 witness: exit status 2 with arbitrary stdout. -/
theorem claim3_witness :
    generate_inventory (.exits 2 "ignored".toList) = .ok emptyDoc ∧
    script_stdout (.exits 2 "ignored".toList) = .ok (dumpsJson emptyDoc) :=
  claim3 2 "ignored".toList (by decide)

/-- C4: whenever the external tool exits successfully but its stdout is not
parseable as JSON, the printed document is the same empty inventory as in the
non-zero-exit case. -/
theorem claim4 (out : List Char) (h : parseJson out = none) :
    generate_inventory (.exits 0 out) = .ok emptyDoc ∧
    script_stdout (.exits 0 out) = .ok (dumpsJson emptyDoc) := by
  constructor
  · simp only [generate_inventory, get_terraform_output]
    rw [if_pos trivial, h]
    rfl
  · simp only [script_stdout, generate_inventory, get_terraform_output]
    rw [if_pos trivial, h]
    rfl

/-- C4 witness: the text `not json` is not parseable as JSON. -/
theorem claim4_witness :
    generate_inventory (.exits 0 "not json".toList) = .ok emptyDoc ∧
    script_stdout (.exits 0 "not json".toList) = .ok (dumpsJson emptyDoc) :=
  claim4 "not json".toList rfl

/-- C5: for every non-empty provisioning-tool output document in which no
non-empty `public_ip` is present — the `vm_connection` entry is absent, or its
value has a missing or empty `public_ip` — no host is added: the result is the
well-formed inventory with an empty `webservers.hosts` list and an empty
`_meta.hostvars` map. -/
theorem claim5 (fs : List (String × JValue)) (hne : fs ≠ [])
    (h : alookup fs "vm_connection" = none ∨
      ∃ wf conn, alookup fs "vm_connection" = some (.obj wf) ∧
        alookup wf "value" = some (.obj conn) ∧
        (alookup conn "public_ip" = none ∨
          alookup conn "public_ip" = some (.str ""))) :
    generate_inventory_from (.obj fs) = .ok (inventoryDoc [] []) ∧
    webHosts (inventoryDoc [] []) = some (.arr []) ∧
    metaHostvars (inventoryDoc [] []) = some (.obj []) := by
  have ht : pyTruthy (.obj fs) = true := pyTruthy_obj_of_ne hne
  refine ⟨?_, rfl, rfl⟩
  unfold generate_inventory_from
  rw [ht]
  rcases h with h | ⟨wf, conn, h1, h2, h3⟩
  · simp only [if_true, pyContains, h, Option.isSome_none]
  · rcases h3 with h3 | h3 <;>
      simp only [if_true, pyContains, h1, Option.isSome_some, pySubscript, pyGet,
        h2, h3, Option.getD_some, Option.getD_none, pyTruthy] <;>
      rfl

/-- C5 witness: a non-empty document without a `vm_connection` entry. -/
theorem claim5_witness :
    generate_inventory_from (.obj [("x", JValue.null)]) = .ok (inventoryDoc [] []) ∧
    webHosts (inventoryDoc [] []) = some (.arr []) ∧
    metaHostvars (inventoryDoc [] []) = some (.obj []) :=
  claim5 [("x", JValue.null)] (by simp) (Or.inl rfl)

/-- C6: for every run whose inventory is produced, the printed text is valid
JSON and parses back to exactly the inventory document that was encoded. -/
theorem claim6 (tb : ToolBehavior) (inv : JValue)
    (_h : generate_inventory tb = .ok inv) :
    parseJson (dumpsJson inv) = some inv :=
  parseJson_dumps inv

/-- C6 witness: the empty inventory produced by a failing tool run
round-trips. -/
theorem claim6_witness : parseJson (dumpsJson emptyDoc) = some emptyDoc :=
  claim6 (.exits 1 []) emptyDoc rfl

/-- C7: every produced inventory document has one of the two fixed top-level
shapes, and whenever the provisioning output was obtained and is non-empty the
`webservers` group's `vars` are exactly the three hardcoded connection
variables, independent of the output's contents. -/
theorem claim7 (tb : ToolBehavior) (tf inv : JValue)
    (_h1 : get_terraform_output tb = .ok tf)
    (h2 : generate_inventory_from tf = .ok inv) :
    (inv = emptyDoc ∨ ∃ hs hv, inv = inventoryDoc hs hv) ∧
    (pyTruthy tf = true → webVars inv = some connVars) := by
  constructor
  · rcases gen_from_shape h2 with h | h | ⟨nm, pub, priv, h⟩
    · exact Or.inl h
    · exact Or.inr ⟨_, _, h⟩
    · exact Or.inr ⟨_, _, h⟩
  · intro ht
    rcases gen_from_truthy_shape ht h2 with ⟨hs, hv, he⟩
    subst he
    rfl

/-- C7 witness: a successfully parsed non-empty document without
`vm_connection` yields the base inventory with the hardcoded group `vars`. -/
theorem claim7_witness :
    ((inventoryDoc [] [] = emptyDoc ∨
        ∃ hs hv, inventoryDoc [] [] = inventoryDoc hs hv) ∧
      (pyTruthy (.obj [("x", JValue.null)]) = true →
        webVars (inventoryDoc [] []) = some connVars)) :=
  claim7 (.exits 0 "\x7b\"x\": null\x7d".toList) (.obj [("x", JValue.null)])
    (inventoryDoc [] []) rfl rfl

/-- C8: in every produced inventory, the host names of `webservers.hosts`
(taken as empty when the group is absent) are exactly the keys of
`_meta.hostvars`, and there is at most one of them. -/
theorem claim8 (tb : ToolBehavior) (inv : JValue)
    (h : generate_inventory tb = .ok inv) :
    hostsList inv = (hvKeys inv).map JValue.str ∧ (hvKeys inv).length ≤ 1 := by
  rcases generate_inventory_ok h with ⟨tf, _h1, h2⟩
  rcases gen_from_shape h2 with he | he | ⟨nm, pub, priv, he⟩ <;> subst he
  · exact ⟨rfl, by decide⟩
  · exact ⟨rfl, by decide⟩
  · exact ⟨rfl, Nat.le.refl⟩

/-- C8 witness: the empty inventory of a failed run satisfies the
invariant. -/
theorem claim8_witness :
    hostsList emptyDoc = (hvKeys emptyDoc).map JValue.str ∧
    (hvKeys emptyDoc).length ≤ 1 :=
  claim8 (.exits 1 []) emptyDoc rfl

/-- C9: for every `vm_connection` value with a non-empty `public_ip` but no
`vm_name` key, the script still adds one host, under the literal name
`unknown` in both `webservers.hosts` and `_meta.hostvars`, whatever the
`private_ip` field holds; and when the `private_ip` key is missing too, the
host's variables record it as the empty string. -/
theorem claim9 (fs wf conn : List (String × JValue)) (ip : String)
    (h1 : alookup fs "vm_connection" = some (.obj wf))
    (h2 : alookup wf "value" = some (.obj conn))
    (h3 : alookup conn "vm_name" = none)
    (h4 : alookup conn "public_ip" = some (.str ip))
    (h5 : ip ≠ "") :
    generate_inventory_from (.obj fs) =
      .ok (inventoryDoc [.str "unknown"]
        [("unknown", hostEntry (.str ip)
          ((alookup conn "private_ip").getD (.str "")) "unknown")]) ∧
    (alookup conn "private_ip" = none →
      generate_inventory_from (.obj fs) =
        .ok (inventoryDoc [.str "unknown"]
          [("unknown", hostEntry (.str ip) (.str "") "unknown")])) := by
  have hne : fs ≠ [] := by
    intro e
    subst e
    exact Option.noConfusion h1
  have ht : pyTruthy (.obj fs) = true := pyTruthy_obj_of_ne hne
  have hip : pyTruthy (.str ip) = true := by
    simp [pyTruthy, h5]
  have hmain : generate_inventory_from (.obj fs) =
      .ok (inventoryDoc [.str "unknown"]
        [("unknown", hostEntry (.str ip)
          ((alookup conn "private_ip").getD (.str "")) "unknown")]) := by
    unfold generate_inventory_from
    rw [ht]
    simp only [if_true, pyContains, h1, Option.isSome_some, pySubscript, pyGet,
      h2, h3, h4, Option.getD_some, Option.getD_none, hip]
  refine ⟨hmain, fun h6 => ?_⟩
  rw [h6, Option.getD_none] at hmain
  exact hmain

/-- C9 witness: a connection value carrying only a `public_ip`; the missing
`private_ip` is recorded as the empty string. -/
theorem claim9_witness :
    generate_inventory_from
        (.obj [("vm_connection", .obj [("value", .obj
          [("public_ip", .str "9.9.9.9")])])]) =
      .ok (inventoryDoc [.str "unknown"]
        [("unknown", hostEntry (.str "9.9.9.9") (.str "") "unknown")]) :=
  (claim9 [("vm_connection", .obj [("value", .obj [("public_ip", .str "9.9.9.9")])])]
    [("value", .obj [("public_ip", .str "9.9.9.9")])]
    [("public_ip", .str "9.9.9.9")]
    "9.9.9.9" rfl rfl rfl rfl (by decide)).2 rfl

/-- C10: the empty-document shape is reserved for the error path: a parsed
non-empty mapping — even one without `vm_connection` — always yields a
document containing the `webservers` group with its hardcoded `vars` in
addition to `_meta`, whereas an empty mapping or a tool/parse error yields
the document containing only `_meta` (which has no `webservers` entry). -/
theorem claim10 :
    (∀ fs inv, generate_inventory_from (.obj fs) = .ok inv →
       ((fs ≠ [] → (docLookup inv "webservers").isSome = true ∧
          webVars inv = some connVars ∧ (docLookup inv "_meta").isSome = true) ∧
        (fs = [] → inv = emptyDoc))) ∧
    (∀ code out, code ≠ 0 ∨ parseJson out = none →
       generate_inventory (.exits code out) = .ok emptyDoc) ∧
    docLookup emptyDoc "webservers" = none := by
  refine ⟨?_, ?_, rfl⟩
  · intro fs inv h
    constructor
    · intro hne
      have ht : pyTruthy (.obj fs) = true := pyTruthy_obj_of_ne hne
      rcases gen_from_truthy_shape ht h with ⟨hs, hv, he⟩
      subst he
      exact ⟨rfl, rfl, rfl⟩
    · intro he
      subst he
      have h2 : Except.ok (ε := PyErr) emptyDoc = Except.ok inv := h
      injection h2 with h2
      exact h2.symm
  · intro code out h
    simp only [generate_inventory, get_terraform_output]
    by_cases hc : code = 0
    · subst hc
      rcases h with h | h
      · exact absurd rfl h
      · rw [if_pos rfl, h]
        rfl
    · rw [if_neg hc]
      rfl

/-- C10 witness: a concrete non-empty mapping without `vm_connection` keeps
the group, and a failing run yields the `_meta`-only document. -/
theorem claim10_witness :
    ((docLookup (inventoryDoc [] []) "webservers").isSome = true ∧
      webVars (inventoryDoc [] []) = some connVars ∧
      (docLookup (inventoryDoc [] []) "_meta").isSome = true) ∧
    generate_inventory (.exits 3 []) = .ok emptyDoc :=
  ⟨(claim10.1 [("x", JValue.null)] (inventoryDoc [] []) rfl).1 (by simp),
   claim10.2.1 3 [] (Or.inl (by decide))⟩
